import Mathlib

/-!
Verification of the chart-sampling engine of `app.py` (Codolio scraper):
the date normalizer `try_parse_date`, the snapshot parser and series
reconciler `refine_points`, and the sweep planner of `synthetic_svg_sweep`.
Python strings are modelled as Lean `String`s (operated on through their
character lists), Python ints as `Int`/`Nat`, floats as `ℚ`, and `None`
as `Option.none`.  All definitions are executable and kernel-reducible.
-/

/-! ## Character-list helpers mirroring the Python string operations -/

/-- Splits a character list at every character satisfying `p` (the separators
are dropped; empty pieces are kept, as with repeated separators in Python). -/
def splitCharAux (p : Char → Bool) : List Char → List Char → List (List Char)
  | [], cur => [cur.reverse]
  | c :: cs, cur => if p c then cur.reverse :: splitCharAux p cs [] else splitCharAux p cs (c :: cur)

def splitChar (p : Char → Bool) (cs : List Char) : List (List Char) :=
  splitCharAux p cs []

/-- Python `str.strip()`: drop whitespace from both ends. -/
def trimChars (cs : List Char) : List Char :=
  ((cs.dropWhile Char.isWhitespace).reverse.dropWhile Char.isWhitespace).reverse

def strTrim (s : String) : String := String.mk (trimChars s.data)

/-- Python `str.split()` with no argument: split on whitespace runs, no empties. -/
def splitWS (cs : List Char) : List (List Char) :=
  (splitChar Char.isWhitespace cs).filter (fun t => !t.isEmpty)

/-- Python `pat in s` substring containment. -/
def containsSub (pat : List Char) : List Char → Bool
  | [] => pat.isEmpty
  | c :: cs => pat.isPrefixOf (c :: cs) || containsSub pat cs

def strContainsSub (s pat : String) : Bool := containsSub pat.data s.data

/-- Python `str.replace(pat, rep)` (left-to-right, non-overlapping), driven by
a fuel argument so that it is structurally recursive. -/
def replaceGo (pat rep : List Char) : Nat → List Char → List Char
  | _, [] => []
  | 0, cs => cs
  | fuel + 1, c :: cs =>
    if pat.isPrefixOf (c :: cs) then rep ++ replaceGo pat rep fuel (List.drop pat.length (c :: cs))
    else c :: replaceGo pat rep fuel cs

def replaceChars (cs pat rep : List Char) : List Char :=
  if pat.isEmpty then cs else replaceGo pat rep cs.length cs

/-- Decimal value of a digit string (Python `int` on an all-digit string). -/
def digitsToNat (cs : List Char) : Nat :=
  cs.foldl (fun n c => 10 * n + (c.toNat - 48)) 0

/-- Lexicographic `≤` on character lists by code point — Python string `<=`. -/
def lexLeB : List Char → List Char → Bool
  | [], _ => true
  | _ :: _, [] => false
  | c :: cs, d :: ds =>
    if c.toNat < d.toNat then true
    else if d.toNat < c.toNat then false
    else lexLeB cs ds

def strLeB (a b : String) : Bool := lexLeB a.data b.data

def digitChar (n : Nat) : Char := Char.ofNat (48 + n)

/-- Decimal digits of a positive natural, fuel-driven. -/
def natCharsGo : Nat → Nat → List Char → List Char
  | _, 0, acc => acc
  | 0, _ + 1, acc => acc
  | fuel + 1, n + 1, acc => natCharsGo fuel ((n + 1) / 10) (digitChar ((n + 1) % 10) :: acc)

def natToChars (n : Nat) : List Char :=
  if n = 0 then ['0'] else natCharsGo n n []

/-- Python `str(i)` for an integer. -/
def intToChars (i : Int) : List Char :=
  if i < 0 then '-' :: natToChars i.natAbs else natToChars i.natAbs

/-- Python `int(s)` on a whitespace-free token: optional sign, then digits;
`none` models the `ValueError` path. -/
def pyIntChars (cs : List Char) : Option Int :=
  match cs with
  | '-' :: rest =>
    if !rest.isEmpty && rest.all Char.isDigit then some (-(Int.ofNat (digitsToNat rest))) else none
  | '+' :: rest =>
    if !rest.isEmpty && rest.all Char.isDigit then some (Int.ofNat (digitsToNat rest)) else none
  | _ =>
    if !cs.isEmpty && cs.all Char.isDigit then some (Int.ofNat (digitsToNat cs)) else none

/-- Python `" ".join(tokens)`. -/
def joinSpaces : List (List Char) → List Char
  | [] => []
  | [t] => t
  | t :: ts => t ++ ' ' :: joinSpaces ts

/-! ## The date normalizer `try_parse_date` -/

structure Date where
  year : Nat
  month : Nat
  day : Nat
deriving DecidableEq

def isLeap (y : Nat) : Bool := y % 4 == 0 && (y % 100 != 0 || y % 400 == 0)

def daysInMonth (y m : Nat) : Nat :=
  if m = 2 then (if isLeap y then 29 else 28)
  else if m = 4 ∨ m = 6 ∨ m = 9 ∨ m = 11 then 30
  else 31

/-- `datetime.date` construction: validity of the calendar date. -/
def mkValidDate (y m d : Nat) : Option Date :=
  if 1 ≤ y ∧ 1 ≤ d ∧ d ≤ daysInMonth y m then some ⟨y, m, d⟩ else none

def monthLookup : List (List Char × Nat) → List Char → Option Nat
  | [], _ => none
  | (nm, n) :: rest, t => if t = nm then some n else monthLookup rest t

/-- `%b` month abbreviations (strptime matches them case-insensitively). -/
def abbrevTable : List (List Char × Nat) :=
  [("jan".data, 1), ("feb".data, 2), ("mar".data, 3), ("apr".data, 4), ("may".data, 5),
   ("jun".data, 6), ("jul".data, 7), ("aug".data, 8), ("sep".data, 9), ("oct".data, 10),
   ("nov".data, 11), ("dec".data, 12)]

/-- `%B` full month names. -/
def fullTable : List (List Char × Nat) :=
  [("january".data, 1), ("february".data, 2), ("march".data, 3), ("april".data, 4),
   ("may".data, 5), ("june".data, 6), ("july".data, 7), ("august".data, 8),
   ("september".data, 9), ("october".data, 10), ("november".data, 11), ("december".data, 12)]

def lowerTok (t : List Char) : List Char := t.map Char.toLower

/-- `%d`: one or two digits with value 1..31. -/
def parseDayTok (t : List Char) : Option Nat :=
  if !t.isEmpty && t.all Char.isDigit && t.length ≤ 2 then
    let v := digitsToNat t
    if 1 ≤ v ∧ v ≤ 31 then some v else none
  else none

/-- `%Y`: exactly four digits. -/
def parseYearTok (t : List Char) : Option Nat :=
  if t.length == 4 && t.all Char.isDigit then some (digitsToNat t) else none

/-- `%m`: one or two digits with value 1..12. -/
def parseMonthNumTok (t : List Char) : Option Nat :=
  if !t.isEmpty && t.all Char.isDigit && t.length ≤ 2 then
    let v := digitsToNat t
    if 1 ≤ v ∧ v ≤ 12 then some v else none
  else none

/-- `strptime(s, "%d <month-name> %Y")` for a given month-name table. -/
def parseMonthNameFormat (tbl : List (List Char × Nat)) (cs : List Char) : Option Date :=
  match splitWS cs with
  | [d, m, y] =>
    match parseDayTok d, monthLookup tbl (lowerTok m), parseYearTok y with
    | some dv, some mv, some yv => mkValidDate yv mv dv
    | _, _, _ => none
  | _ => none

def parse_d_b_Y (cs : List Char) : Option Date := parseMonthNameFormat abbrevTable cs

def parse_d_B_Y (cs : List Char) : Option Date := parseMonthNameFormat fullTable cs

/-- `strptime(s, "%d %b, %Y")`: the comma must directly follow the month name. -/
def parse_d_bComma_Y (cs : List Char) : Option Date :=
  match splitWS cs with
  | [d, m, y] =>
    match m.reverse with
    | ',' :: mrev =>
      match parseDayTok d, monthLookup abbrevTable (lowerTok mrev.reverse), parseYearTok y with
      | some dv, some mv, some yv => mkValidDate yv mv dv
      | _, _, _ => none
    | _ => none
  | _ => none

/-- `strptime(s, "%Y-%m-%d")`. -/
def parse_Y_m_d (cs : List Char) : Option Date :=
  match splitChar (· == '-') cs with
  | [y, m, d] =>
    match parseYearTok y, parseMonthNumTok m, parseDayTok d with
    | some yv, some mv, some dv => mkValidDate yv mv dv
    | _, _, _ => none
  | _ => none

/-- The 3-token fallback of `try_parse_date`: `day = int(parts[0])`,
`year = int(parts[2])`, then re-try the two month-name formats on
`f"{day} {month} {year}"`; any exception yields `none`. -/
def fallback3 (cs : List Char) : Option Date :=
  match splitWS cs with
  | [p0, p1, p2] =>
    match pyIntChars p0, pyIntChars p2 with
    | some day, some year =>
      let s2 := intToChars day ++ ' ' :: p1 ++ ' ' :: intToChars year
      (parse_d_b_Y s2).orElse fun _ => parse_d_B_Y s2
    | _, _ => none
  | _ => none

/-- `dstr.strip().replace("Sept ", "Sep ")`. -/
def preprocess (dstr : String) : List Char :=
  replaceChars (trimChars dstr.data) "Sept ".data "Sep ".data

/-- `try_parse_date` from `app.py` (lines 83–105). -/
def try_parse_date (dstr : String) : Option Date :=
  if dstr = "" then none
  else
    let s := preprocess dstr
    (parse_d_b_Y s).orElse fun _ =>
    (parse_d_B_Y s).orElse fun _ =>
    (parse_d_bComma_Y s).orElse fun _ =>
    (parse_Y_m_d s).orElse fun _ =>
    fallback3 s

def pad2 (n : Nat) : List Char := [digitChar (n / 10 % 10), digitChar (n % 10)]

def pad4 (n : Nat) : List Char :=
  [digitChar (n / 1000 % 10), digitChar (n / 100 % 10), digitChar (n / 10 % 10), digitChar (n % 10)]

/-- `date.isoformat()`: zero-padded `YYYY-MM-DD`. -/
def isoformat (d : Date) : String :=
  String.mk (pad4 d.year ++ '-' :: pad2 d.month ++ '-' :: pad2 d.day)

/-! ## The snapshot parser and series reconciler `refine_points` -/

/-- Python truthiness of an optional integer (`None` and `0` are falsy). -/
def optIntTruthy : Option Int → Bool
  | none => false
  | some v => v != 0

/-- Python truthiness of an optional string (`None` and `""` are falsy). -/
def optStrTruthy : Option String → Bool
  | none => false
  | some s => s != ""

/-- The four per-snapshot parse variables of the `refine_points` loop:
`contest`, `date_str`, `rating`, `rank`. -/
structure PFields where
  contest : Option String
  dstr : Option String
  rating : Option Int
  rank : Option Int
deriving DecidableEq

/-- `int("".join(ch for ch in ln if ch.isdigit()))`, with the `ValueError`
on a digit-free line modelled as `none`. -/
def rankDigitsVal (ln : String) : Option Int :=
  let ds := ln.data.filter Char.isDigit
  if ds.isEmpty then none else some (Int.ofNat (digitsToNat ds))

/-- `re.search(r"(\d{3,5})", ln)`: value of the leftmost run of at least
three consecutive digits, truncated greedily to five. Fuel-driven scan. -/
def ratingSearchGo : Nat → List Char → Option Nat
  | _, [] => none
  | 0, _ :: _ => none
  | fuel + 1, c :: cs =>
    if c.isDigit then
      let run := List.takeWhile Char.isDigit (c :: cs)
      if 3 ≤ run.length then some (digitsToNat (List.take 5 run))
      else ratingSearchGo fuel (List.dropWhile Char.isDigit (c :: cs))
    else ratingSearchGo fuel cs

def ratingSearch (ln : String) : Option Nat := ratingSearchGo ln.data.length ln.data

/-- The case-sensitive month substrings tested on a candidate date line. -/
def monthTokens : List String :=
  ["Jan", "Feb", "Mar", "Apr", "May", "Jun", "Jul", "Aug", "Sep", "Oct", "Nov", "Dec", "Sept"]

def lastThree (ts : List (List Char)) : List (List Char) := (ts.reverse.take 3).reverse

/-- The date-line heuristic: at least three whitespace tokens, the last one a
4-digit number, and the joined last three tokens containing a month token. -/
def dateLineCheck (ln : String) : Option String :=
  let parts := splitWS ln.data
  if 3 ≤ parts.length then
    match parts.getLast? with
    | some last =>
      if (!last.isEmpty && last.all Char.isDigit) && last.length == 4 then
        let ds := joinSpaces (lastThree parts)
        if monthTokens.any (fun mm => containsSub mm.data ds) then some (String.mk ds) else none
      else none
    | none => none
  else none

/-- One iteration of the tooltip line loop (`app.py` lines 170–186):
a "Rank" line with digits overwrites `rank`; the first 3–5 digit run sets
`rating` while `rating` is falsy; a "Contest"/"contest" line overwrites
`contest`; a month/4-digit-year line overwrites `date_str`. -/
def lineStep (st : PFields) (ln : String) : PFields :=
  let newRank := if strContainsSub ln "Rank" then
      match rankDigitsVal ln with
      | some v => some v
      | none => st.rank
    else st.rank
  let newRating := match ratingSearch ln with
    | some v => if optIntTruthy st.rating then st.rating else some (Int.ofNat v)
    | none => st.rating
  let newContest := if strContainsSub ln "Contest" || strContainsSub ln "contest" then some ln
    else st.contest
  let newDstr := match dateLineCheck ln with
    | some ds => some ds
    | none => st.dstr
  ⟨newContest, newDstr, newRating, newRank⟩

/-- `[ln.strip() for ln in raw.splitlines() if ln.strip()]`. -/
def linesOf (raw : String) : List String :=
  ((splitChar (· == '\n') raw.data).map (fun l => String.mk (trimChars l))).filter (fun s => s ≠ "")

/-- The tooltip branch of `refine_points`: a fold of `lineStep` over the
trimmed, non-empty lines, starting from four `None`s. -/
def tooltipFields (raw : String) : PFields :=
  (linesOf raw).foldl lineStep ⟨none, none, none, none⟩

/-- A raw probe snapshot handed to `refine_points`: a falsy item (skipped),
a panel dict (keys `contestName`, `date`, `rating`, `rank`), or a tooltip
dict (key `raw_tooltip`). -/
inductive RawItem where
  | emptyItem : RawItem
  | panel (contestName dateText : Option String) (rating rank : Option Int) : RawItem
  | tooltip (raw : String) : RawItem
deriving DecidableEq

/-- Field extraction for one item: a panel with a truthy `contestName` maps
its fields directly; otherwise the tooltip text (`""` for a panel without
one) goes through the line heuristics. -/
def parseFields : RawItem → PFields
  | .emptyItem => ⟨none, none, none, none⟩
  | .panel c d rt rk => if optStrTruthy c then ⟨c, d, rt, rk⟩ else tooltipFields ""
  | .tooltip raw => tooltipFields raw

/-- `iso`: `try_parse_date(date_str).isoformat()` when `date_str` is truthy
and parses, else `None`. -/
def isoOfDate : Option String → Option String
  | none => none
  | some s => if s ≠ "" then (try_parse_date s).map isoformat else none

/-- Dedup key `(iso if iso else date_str or "", (contest or "").strip())`. -/
def keyOfFields (f : PFields) : String × String :=
  (match isoOfDate f.dstr with
   | some i => i
   | none => f.dstr.getD "",
   strTrim (f.contest.getD ""))

/-- `sum(1 for v in (rating, rank, date_str, contest) if v)` — Python
truthiness, so integer `0` and `""` do not count. -/
def truthyScore (rt rk : Option Int) (d c : Option String) : Nat :=
  (if optIntTruthy rt then 1 else 0) + (if optIntTruthy rk then 1 else 0)
    + (if optStrTruthy d then 1 else 0) + (if optStrTruthy c then 1 else 0)

/-- A refined record as stored in `refined_map`, including the internal
`"_iso"` entry. -/
structure Rec where
  rating : Option Int
  date : Option String
  contestName : Option String
  rank : Option Int
  iso : Option String
deriving DecidableEq

def recOfFields (f : PFields) : Rec :=
  ⟨f.rating, f.dstr, f.contest, f.rank, isoOfDate f.dstr⟩

def keyOf (it : RawItem) : String × String := keyOfFields (parseFields it)

def codeScore (it : RawItem) : Nat :=
  truthyScore (parseFields it).rating (parseFields it).rank (parseFields it).dstr
    (parseFields it).contest

def recOf (it : RawItem) : Rec := recOfFields (parseFields it)

def recScore (r : Rec) : Nat := truthyScore r.rating r.rank r.date r.contestName

/-- Count of non-`None` fields — the spec's wording of the score
("count of non-null among rating, rank, date, contestName"), kept distinct
from the truthiness-based `truthyScore` the code computes. -/
def specScore (it : RawItem) : Nat :=
  let f := parseFields it
  (if f.rating.isSome then 1 else 0) + (if f.rank.isSome then 1 else 0)
    + (if f.dstr.isSome then 1 else 0) + (if f.contest.isSome then 1 else 0)

/-- `refined_map.get(key)` over the insertion-ordered association list. -/
def findKey (k : String × String) : List ((String × String) × Rec) → Option Rec
  | [] => none
  | (k', v) :: rest => if k' = k then some v else findKey k rest

/-- `refined_map[key] = v`: replace in place when the key exists (Python
dicts keep the original insertion position), else append. -/
def dictSet (k : String × String) (v : Rec) :
    List ((String × String) × Rec) → List ((String × String) × Rec)
  | [] => [(k, v)]
  | (k', v') :: rest => if k' = k then (k', v) :: rest else (k', v') :: dictSet k v rest

/-- One iteration of the main `refine_points` loop (`app.py` lines 157–209). -/
def refineStep (m : List ((String × String) × Rec)) (it : RawItem) :
    List ((String × String) × Rec) :=
  match it with
  | .emptyItem => m
  | _ =>
    let f := parseFields it
    let key := keyOfFields f
    let score := truthyScore f.rating f.rank f.dstr f.contest
    match findKey key m with
    | some ex => if score ≤ recScore ex then m else dictSet key (recOfFields f) m
    | none => dictSet key (recOfFields f) m

/-- The sort key comparison `(0, _iso) / (1, date or "")` of the final
`items.sort` — lexicographic tuple `≤` as Python compares them. -/
def recLeB (a b : Rec) : Bool :=
  match a.iso, b.iso with
  | some ia, some ib => strLeB ia ib
  | some _, none => true
  | none, some _ => false
  | none, none => strLeB (a.date.getD "") (b.date.getD "")

/-- Stable insertion: an element moves past strictly smaller heads only, so
equal keys keep their original order — the behavior of Python's stable sort. -/
def sInsert (a : Rec) : List Rec → List Rec
  | [] => [a]
  | b :: bs => if recLeB a b then a :: b :: bs else b :: sInsert a bs

def sSort : List Rec → List Rec
  | [] => []
  | a :: rest => sInsert a (sSort rest)

/-- A record of the output Series (after `it.pop("_iso")`). -/
structure OutRec where
  rating : Option Int
  date : Option String
  contestName : Option String
  rank : Option Int
deriving DecidableEq

def stripIso (r : Rec) : OutRec := ⟨r.rating, r.date, r.contestName, r.rank⟩

/-- `refine_points` from `app.py` (lines 155–215). -/
def refine_points (raw_points : List RawItem) : List OutRec :=
  let m := raw_points.foldl refineStep []
  (sSort (m.map Prod.snd)).map stripIso

/-- The resolvable iso date of an output record, recomputed from its raw
`date` exactly as the reconciler derived the internal `_iso`. -/
def outIso (r : OutRec) : Option String := isoOfDate r.date

/-- The two-tier order of the final Series: dated records (resolvable iso)
by iso date, before dateless records by raw date string. -/
def outLeB (a b : OutRec) : Bool :=
  match outIso a, outIso b with
  | some ia, some ib => strLeB ia ib
  | some _, none => true
  | none, some _ => false
  | none, none => strLeB (a.date.getD "") (b.date.getD "")

def outLe (a b : OutRec) : Prop := outLeB a b = true

/-! ## The sweep planner of `synthetic_svg_sweep` -/

def X_STEPS : Nat := 220

def Y_SWEEP_PIXELS : Int := 80

def Y_SWEEP_STEP : Int := 12

/-- The svg bounding box (Python floats modelled as rationals). -/
structure Box where
  left : ℚ
  top : ℚ
  width : ℚ
  height : ℚ

def pad_x (b : Box) : ℚ := max 4 (b.width * (2 / 100))

def start_x (b : Box) : ℚ := b.left + pad_x b

def end_x (b : Box) : ℚ := b.left + b.width - pad_x b

/-- Python `int()` on a float: truncation toward zero. -/
def pyTrunc (q : ℚ) : Int := if 0 ≤ q then ⌊q⌋ else ⌈q⌉

def center_y (b : Box) : Int := pyTrunc (b.top + b.height * (1 / 2))

/-- `Y_SWEEP_PIXELS // 2` (Python floor division). -/
def halfFan : Int := Int.fdiv Y_SWEEP_PIXELS 2

/-- Python `range(a, b, step)` for a positive step. -/
def intRange (a b step : Int) : List Int :=
  (List.range (Int.toNat ((b - a + step - 1).fdiv step))).map (fun i => a + step * (i : Int))

/-- `y_positions = [center_y + offset for offset in range(-half, half+1, Y_SWEEP_STEP)]`. -/
def y_positions (b : Box) : List Int :=
  (intRange (-halfFan) (halfFan + 1) Y_SWEEP_STEP).map (fun off => center_y b + off)

/-- Python `round()` on a float-like value: round half to even. -/
def pyRound (q : ℚ) : Int :=
  if q - ⌊q⌋ < 1 / 2 then ⌊q⌋
  else if 1 / 2 < q - ⌊q⌋ then ⌊q⌋ + 1
  else if ⌊q⌋ % 2 = 0 then ⌊q⌋ else ⌊q⌋ + 1

/-- `x = int(round(start_x + (end_x - start_x) * t))` with
`t = i / (X_STEPS - 1)` (or `0.5` when `X_STEPS <= 1`). -/
def x_at (b : Box) (i : Nat) : Int :=
  let t : ℚ := if 1 < X_STEPS then (i : ℚ) / ((X_STEPS : ℚ) - 1) else 1 / 2
  pyRound (start_x b + (end_x b - start_x b) * t)

def xCoords (b : Box) : List Int := (List.range X_STEPS).map (x_at b)

/-- The full plan of probe coordinates (x outer and ascending in `i`, y
inner), for an optional bounding box: a missing svg element or missing
bounding box (`none`) yields the empty plan. -/
def sweepPlan : Option Box → List (Int × Int)
  | none => []
  | some b => (xCoords b).flatMap fun x => (y_positions b).map fun y => (x, y)

/-! ## Order lemmas for the sort comparison -/

theorem lexLeB_total (a : List Char) : ∀ b, lexLeB a b = true ∨ lexLeB b a = true := by
  induction a with
  | nil => intro b; left; rfl
  | cons c cs ih =>
    intro b
    cases b with
    | nil => right; rfl
    | cons d ds =>
      by_cases h1 : c.toNat < d.toNat
      · left; simp [lexLeB, h1]
      · by_cases h2 : d.toNat < c.toNat
        · right; simp [lexLeB, h1, h2]
        · rcases ih ds with h | h
          · left; simp [lexLeB, h1, h2, h]
          · right; simp [lexLeB, h1, h2, h]

theorem lexLeB_trans {a b c : List Char} (h1 : lexLeB a b = true) (h2 : lexLeB b c = true) :
    lexLeB a c = true := by
  induction a generalizing b c with
  | nil => rfl
  | cons x xs ih =>
    cases b with
    | nil => simp [lexLeB] at h1
    | cons y ys =>
      cases c with
      | nil => simp [lexLeB] at h2
      | cons z zs =>
        simp only [lexLeB] at h1 h2 ⊢
        by_cases hxy : x.toNat < y.toNat
        · by_cases hyz : y.toNat < z.toNat
          · have : x.toNat < z.toNat := by omega
            simp [this]
          · by_cases hzy : z.toNat < y.toNat
            · simp [hyz, hzy] at h2
            · have : x.toNat < z.toNat := by omega
              simp [this]
        · by_cases hyx : y.toNat < x.toNat
          · simp [hxy, hyx] at h1
          · by_cases hyz : y.toNat < z.toNat
            · have : x.toNat < z.toNat := by omega
              simp [this]
            · by_cases hzy : z.toNat < y.toNat
              · simp [hyz, hzy] at h2
              · have hxz : ¬ x.toNat < z.toNat := by omega
                have hzx : ¬ z.toNat < x.toNat := by omega
                rw [if_neg hxy, if_neg hyx] at h1
                rw [if_neg hyz, if_neg hzy] at h2
                rw [if_neg hxz, if_neg hzx]
                exact ih h1 h2

theorem strLeB_total (a b : String) : strLeB a b = true ∨ strLeB b a = true :=
  lexLeB_total a.data b.data

theorem strLeB_trans {a b c : String} (h1 : strLeB a b = true) (h2 : strLeB b c = true) :
    strLeB a c = true :=
  lexLeB_trans h1 h2

theorem recLeB_total (a b : Rec) : recLeB a b = true ∨ recLeB b a = true := by
  unfold recLeB
  cases ha : a.iso with
  | none =>
    cases hb : b.iso with
    | none => exact strLeB_total _ _
    | some ib => right; rfl
  | some ia =>
    cases hb : b.iso with
    | none => left; rfl
    | some ib => exact strLeB_total _ _

theorem outLeB_trans {a b c : OutRec} (h1 : outLeB a b = true) (h2 : outLeB b c = true) :
    outLeB a c = true := by
  unfold outLeB at h1 h2 ⊢
  cases ha : outIso a with
  | none =>
    cases hb : outIso b with
    | none =>
      cases hc : outIso c with
      | none =>
        rw [ha, hb] at h1; rw [hb, hc] at h2
        exact strLeB_trans h1 h2
      | some ic => rw [hb, hc] at h2; exact absurd h2 (by simp)
    | some ib => rw [ha, hb] at h1; exact absurd h1 (by simp)
  | some ia =>
    cases hc : outIso c with
    | none => cases houtb : outIso b <;> rfl
    | some ic =>
      cases hb : outIso b with
      | none => rw [hb, hc] at h2; exact absurd h2 (by simp)
      | some ib =>
        rw [ha, hb] at h1; rw [hb, hc] at h2
        exact strLeB_trans h1 h2

def outLeRel : OutRec → OutRec → Prop := fun a b => outLeB a b = true

instance : IsTrans OutRec outLeRel := ⟨fun _ _ _ h1 h2 => outLeB_trans h1 h2⟩

/-! ## The stable insertion sort is sorted -/

def recLe : Rec → Rec → Prop := fun a b => recLeB a b = true

theorem chain'_sInsert {a : Rec} {l : List Rec} (h : List.Chain' recLe l) :
    List.Chain' recLe (sInsert a l) := by
  induction l with
  | nil => simp [sInsert]
  | cons b bs ih =>
    by_cases hab : recLeB a b = true
    · rw [sInsert, if_pos hab]
      exact List.chain'_cons.mpr ⟨hab, h⟩
    · rw [sInsert, if_neg hab]
      have hba : recLeB b a = true := (recLeB_total a b).resolve_left hab
      have htail := ih h.tail
      apply List.chain'_cons'.mpr
      refine ⟨?_, htail⟩
      intro y hy
      cases bs with
      | nil => simp [sInsert] at hy; subst hy; exact hba
      | cons c cs =>
        rw [sInsert] at hy
        by_cases hac : recLeB a c = true
        · rw [if_pos hac] at hy
          simp at hy; subst hy; exact hba
        · rw [if_neg hac] at hy
          simp at hy; subst hy
          exact (List.chain'_cons.mp h).1

theorem chain'_sSort (l : List Rec) : List.Chain' recLe (sSort l) := by
  induction l with
  | nil => simp [sSort]
  | cons a rest ih => exact chain'_sInsert ih

theorem mem_sInsert {x a : Rec} {l : List Rec} (h : x ∈ sInsert a l) : x = a ∨ x ∈ l := by
  induction l with
  | nil => simp [sInsert] at h; exact Or.inl h
  | cons b bs ih =>
    rw [sInsert] at h
    by_cases hab : recLeB a b = true
    · rw [if_pos hab] at h
      rcases List.mem_cons.mp h with h | h
      · exact Or.inl h
      · exact Or.inr h
    · rw [if_neg hab] at h
      rcases List.mem_cons.mp h with h | h
      · exact Or.inr (List.mem_cons.mpr (Or.inl h))
      · rcases ih h with h | h
        · exact Or.inl h
        · exact Or.inr (List.mem_cons.mpr (Or.inr h))

theorem mem_sSort {x : Rec} {l : List Rec} (h : x ∈ sSort l) : x ∈ l := by
  induction l with
  | nil => simp [sSort] at h
  | cons a rest ih =>
    rcases mem_sInsert h with h | h
    · simp [h]
    · exact List.mem_cons.mpr (Or.inr (ih h))

/-! ## The `_iso` invariant of stored records and the ordering theorem -/

/-- Every record stored in `refined_map` carries as `iso` exactly the iso
date recomputed from its own `date` field. -/
def RecInv (r : Rec) : Prop := r.iso = isoOfDate r.date

theorem recInv_recOfFields (f : PFields) : RecInv (recOfFields f) := rfl

theorem mem_dictSet {k : String × String} {v : Rec}
    {m : List ((String × String) × Rec)} {kv : (String × String) × Rec}
    (h : kv ∈ dictSet k v m) : kv = (k, v) ∨ kv ∈ m := by
  induction m with
  | nil => simp [dictSet] at h; simp [h]
  | cons p rest ih =>
    obtain ⟨k', v'⟩ := p
    rw [dictSet] at h
    by_cases hk : k' = k
    · rw [if_pos hk] at h
      rcases List.mem_cons.mp h with h | h
      · subst hk; rw [h]; exact Or.inl rfl
      · exact Or.inr (List.mem_cons.mpr (Or.inr h))
    · rw [if_neg hk] at h
      rcases List.mem_cons.mp h with h | h
      · exact Or.inr (List.mem_cons.mpr (Or.inl h))
      · rcases ih h with h | h
        · exact Or.inl h
        · exact Or.inr (List.mem_cons.mpr (Or.inr h))

theorem refineStep_mem {m : List ((String × String) × Rec)} {it : RawItem}
    {kv : (String × String) × Rec} (hkv : kv ∈ refineStep m it) :
    kv.2 = recOfFields (parseFields it) ∨ kv ∈ m := by
  cases it with
  | emptyItem => exact Or.inr hkv
  | panel c d rt rk =>
    simp only [refineStep] at hkv
    split at hkv
    · split at hkv
      · exact Or.inr hkv
      · rcases mem_dictSet hkv with h | h
        · rw [h]; exact Or.inl rfl
        · exact Or.inr h
    · rcases mem_dictSet hkv with h | h
      · rw [h]; exact Or.inl rfl
      · exact Or.inr h
  | tooltip raw =>
    simp only [refineStep] at hkv
    split at hkv
    · split at hkv
      · exact Or.inr hkv
      · rcases mem_dictSet hkv with h | h
        · rw [h]; exact Or.inl rfl
        · exact Or.inr h
    · rcases mem_dictSet hkv with h | h
      · rw [h]; exact Or.inl rfl
      · exact Or.inr h

theorem refineStep_inv {m : List ((String × String) × Rec)} (it : RawItem)
    (hm : ∀ kv ∈ m, RecInv kv.2) : ∀ kv ∈ refineStep m it, RecInv kv.2 := by
  intro kv hkv
  rcases refineStep_mem hkv with h | h
  · rw [h]; exact recInv_recOfFields _
  · exact hm kv h

theorem foldl_refineStep_inv (ps : List RawItem) :
    ∀ (m : List ((String × String) × Rec)), (∀ kv ∈ m, RecInv kv.2) →
      ∀ kv ∈ ps.foldl refineStep m, RecInv kv.2 := by
  induction ps with
  | nil => intro m hm kv hkv; exact hm kv hkv
  | cons it ps ih =>
    intro m hm kv hkv
    exact ih (refineStep m it) (refineStep_inv it hm) kv hkv

/-- Under the invariant, stripping `_iso` turns the stored comparison into
the recomputed output comparison. -/
theorem outLeB_stripIso {a b : Rec} (ha : RecInv a) (hb : RecInv b) :
    outLeB (stripIso a) (stripIso b) = recLeB a b := by
  unfold outLeB recLeB outIso stripIso
  rw [← ha, ← hb]

theorem chain'_map_stripIso {l : List Rec} (hP : ∀ x ∈ l, RecInv x)
    (h : List.Chain' recLe l) : List.Chain' outLeRel (l.map stripIso) := by
  induction l with
  | nil => simp
  | cons a t ih =>
    cases t with
    | nil => simp
    | cons b t2 =>
      rw [List.map_cons, List.map_cons, List.chain'_cons]
      obtain ⟨hab, htail⟩ := List.chain'_cons.mp h
      constructor
      · show outLeB (stripIso a) (stripIso b) = true
        rw [outLeB_stripIso (hP a (by simp)) (hP b (by simp))]
        exact hab
      · have := ih (fun x hx => hP x (List.mem_cons.mpr (Or.inr hx))) htail
        rw [List.map_cons] at this
        exact this

/-- C3: for every input to the reconciler, the output Series is two-tier
ordered: Records with a resolvable iso date come first, ascending by that
date (the 10-character zero-padded iso strings compare like the dates),
and Records without one come after every dated Record, ascending by raw
date string (the empty string least).  `outLeRel` is exactly this two-tier
comparison, recomputed from each output record's raw `date`. -/
theorem c3_thm (ps : List RawItem) : List.Pairwise outLeRel (refine_points ps) := by
  have hinv : ∀ r ∈ (ps.foldl refineStep []).map Prod.snd, RecInv r := by
    intro r hr
    rcases List.mem_map.mp hr with ⟨kv, hkv, hrfl⟩
    rw [← hrfl]
    exact foldl_refineStep_inv ps [] (by intro kv h; simp at h) kv hkv
  have hch : List.Chain' recLe (sSort ((ps.foldl refineStep []).map Prod.snd)) :=
    chain'_sSort _
  have hP : ∀ x ∈ sSort ((ps.foldl refineStep []).map Prod.snd), RecInv x :=
    fun x hx => hinv x (mem_sSort hx)
  have hchain : List.Chain' outLeRel (refine_points ps) := by
    show List.Chain' outLeRel ((sSort ((ps.foldl refineStep []).map Prod.snd)).map stripIso)
    exact chain'_map_stripIso hP hch
  exact List.chain'_iff_pairwise.mp hchain

/-- Witness for C3 at the spec's panel-hit scenario. -/
theorem c3_witness :
    List.Pairwise outLeRel (refine_points
      [RawItem.panel (some "Weekly 1") (some "01 Jan 2022") (some 1500) none,
       RawItem.panel (some "Weekly 2") (some "08 Jan 2022") (some 1550) none]) :=
  c3_thm _

/-! ## Reconciling a pair of candidates sharing the dedup key -/

theorem refineStep_of_ne (m : List ((String × String) × Rec)) (it : RawItem)
    (h : it ≠ RawItem.emptyItem) :
    refineStep m it =
      match findKey (keyOf it) m with
      | some ex => if codeScore it ≤ recScore ex then m else dictSet (keyOf it) (recOf it) m
      | none => dictSet (keyOf it) (recOf it) m := by
  cases it with
  | emptyItem => exact absurd rfl h
  | panel c d rt rk => rfl
  | tooltip raw => rfl

/-- Reconciling a two-element candidate list whose items share the dedup
key: the later item replaces the earlier exactly when its (truthiness)
score is strictly higher. -/
theorem refine_pair (a b : RawItem) (ha : a ≠ RawItem.emptyItem) (hb : b ≠ RawItem.emptyItem)
    (hk : keyOf a = keyOf b) :
    refine_points [a, b] =
      [stripIso (if codeScore b ≤ codeScore a then recOf a else recOf b)] := by
  have h1 : refineStep [] a = [(keyOf a, recOf a)] := by
    rw [refineStep_of_ne [] a ha]; rfl
  have hfind : findKey (keyOf b) [(keyOf a, recOf a)] = some (recOf a) := by
    simp [findKey, hk]
  have hsc : recScore (recOf a) = codeScore a := rfl
  have h2 : refineStep [(keyOf a, recOf a)] b =
      if codeScore b ≤ codeScore a then [(keyOf a, recOf a)] else [(keyOf a, recOf b)] := by
    rw [refineStep_of_ne _ b hb, hfind]
    show (if codeScore b ≤ recScore (recOf a) then [(keyOf a, recOf a)]
      else dictSet (keyOf b) (recOf b) [(keyOf a, recOf a)]) = _
    rw [hsc]
    by_cases hc : codeScore b ≤ codeScore a
    · rw [if_pos hc, if_pos hc]
    · rw [if_neg hc, if_neg hc]
      simp [dictSet, hk]
  show (sSort (([a, b].foldl refineStep []).map Prod.snd)).map stripIso = _
  rw [List.foldl_cons, List.foldl_cons, List.foldl_nil, h1, h2]
  by_cases hc : codeScore b ≤ codeScore a
  · rw [if_pos hc, if_pos hc]; rfl
  · rw [if_neg hc, if_neg hc]; rfl

/-- C2 (amended): for two candidates sharing the dedup key, the reconciler
keeps the strictly-higher scoring one — score being the code's truthiness
count (a zero integer or empty string does not count) — and on a tie keeps
the earliest-seen; a later candidate with equal-or-lower score never
overwrites. -/
theorem c2_amended_thm (a b : RawItem) (ha : a ≠ RawItem.emptyItem)
    (hb : b ≠ RawItem.emptyItem) (hk : keyOf a = keyOf b) :
    refine_points [a, b] =
      [stripIso (if codeScore b ≤ codeScore a then recOf a else recOf b)] :=
  refine_pair a b ha hb hk

/-- Witness for C2: the rank-null candidate first, the rank-populated
(nonzero rank) second; the populated one has the strictly higher score and
is the single record of the Series. -/
theorem c2_witness :
    RawItem.panel (some "Weekly Contest 9") (some "05 Feb 2023") none none ≠
        RawItem.emptyItem ∧
    RawItem.panel (some "Weekly Contest 9") (some "05 Feb 2023") (some 1500) (some 11) ≠
        RawItem.emptyItem ∧
    keyOf (RawItem.panel (some "Weekly Contest 9") (some "05 Feb 2023") none none) =
      keyOf (RawItem.panel (some "Weekly Contest 9") (some "05 Feb 2023") (some 1500) (some 11)) ∧
    refine_points
        [RawItem.panel (some "Weekly Contest 9") (some "05 Feb 2023") none none,
         RawItem.panel (some "Weekly Contest 9") (some "05 Feb 2023") (some 1500) (some 11)] =
      [stripIso (if
          codeScore (RawItem.panel (some "Weekly Contest 9") (some "05 Feb 2023") (some 1500)
            (some 11)) ≤
          codeScore (RawItem.panel (some "Weekly Contest 9") (some "05 Feb 2023") none none) then
        recOf (RawItem.panel (some "Weekly Contest 9") (some "05 Feb 2023") none none)
      else
        recOf (RawItem.panel (some "Weekly Contest 9") (some "05 Feb 2023") (some 1500)
          (some 11)))] :=
  ⟨by decide, by decide, by decide,
    c2_amended_thm _ _ (by decide) (by decide) (by decide)⟩

/-- C2 counterexample: with the spec's "count of non-null" score, the claim
fails — candidate `a` (rank present but `0`) shares the key with `b` (rank
null) and has the strictly higher non-null count (3 vs 2), yet reconciling
`[b, a]` keeps `b`: the code scores by truthiness, ties them at 2, and the
first write wins, so the output record has `rank = none`. -/
theorem c2_counterexample :
    specScore (RawItem.panel (some "Weekly Contest 1") (some "01 Jan 2022") none (some 0)) = 3 ∧
    specScore (RawItem.panel (some "Weekly Contest 1") (some "01 Jan 2022") none none) = 2 ∧
    keyOf (RawItem.panel (some "Weekly Contest 1") (some "01 Jan 2022") none (some 0)) =
      keyOf (RawItem.panel (some "Weekly Contest 1") (some "01 Jan 2022") none none) ∧
    refine_points
        [RawItem.panel (some "Weekly Contest 1") (some "01 Jan 2022") none none,
         RawItem.panel (some "Weekly Contest 1") (some "01 Jan 2022") none (some 0)] =
      [⟨none, some "01 Jan 2022", some "Weekly Contest 1", none⟩] :=
  ⟨by decide, by decide, by decide, by decide⟩

/-- C5 (amended): order insensitivity holds for a pair of candidates that
share the dedup key, with score taken as the code's truthiness count. -/
theorem c5_amended_thm (a b : RawItem) (ha : a ≠ RawItem.emptyItem)
    (hb : b ≠ RawItem.emptyItem) (hk : keyOf a = keyOf b)
    (hs : codeScore a ≠ codeScore b) :
    refine_points [a, b] = refine_points [b, a] := by
  rw [refine_pair a b ha hb hk, refine_pair b a hb ha hk.symm]
  rcases Nat.lt_or_ge (codeScore a) (codeScore b) with h | h
  · rw [if_neg (by omega), if_pos (by omega)]
  · have hba : codeScore b ≤ codeScore a := h
    rcases Nat.lt_or_ge (codeScore b) (codeScore a) with h2 | h2
    · rw [if_pos (by omega), if_neg (by omega)]
    · omega

/-- Witness for C5 on a shared-key pair with scores 3 and 2. -/
theorem c5_witness :
    keyOf (RawItem.panel (some "Weekly Contest 1") (some "01 Jan 2022") (some 1500) none) =
      keyOf (RawItem.panel (some "Weekly Contest 1") (some "01 Jan 2022") none none) ∧
    codeScore (RawItem.panel (some "Weekly Contest 1") (some "01 Jan 2022") (some 1500) none) ≠
      codeScore (RawItem.panel (some "Weekly Contest 1") (some "01 Jan 2022") none none) ∧
    refine_points
        [RawItem.panel (some "Weekly Contest 1") (some "01 Jan 2022") (some 1500) none,
         RawItem.panel (some "Weekly Contest 1") (some "01 Jan 2022") none none] =
      refine_points
        [RawItem.panel (some "Weekly Contest 1") (some "01 Jan 2022") none none,
         RawItem.panel (some "Weekly Contest 1") (some "01 Jan 2022") (some 1500) none] :=
  ⟨by decide, by decide,
    c5_amended_thm _ _ (by decide) (by decide) (by decide) (by decide)⟩

/-- C5 counterexample: two candidates with different scores (by either
scoring reading: 3 vs 2) but different dedup keys (same iso date, different
contest names) — the two orders give Series that differ (the stable sort
keeps insertion order on the tied iso-date sort key), refuting
`reconcile([A,B]) == reconcile([B,A])` as claimed for any two candidates
with unequal scores. -/
theorem c5_counterexample :
    specScore (RawItem.panel (some "Weekly Contest 1") (some "01 Jan 2022") (some 1500) none) = 3 ∧
    specScore (RawItem.panel (some "Weekly Contest 2") (some "01 Jan 2022") none none) = 2 ∧
    codeScore (RawItem.panel (some "Weekly Contest 1") (some "01 Jan 2022") (some 1500) none) = 3 ∧
    codeScore (RawItem.panel (some "Weekly Contest 2") (some "01 Jan 2022") none none) = 2 ∧
    refine_points
        [RawItem.panel (some "Weekly Contest 1") (some "01 Jan 2022") (some 1500) none,
         RawItem.panel (some "Weekly Contest 2") (some "01 Jan 2022") none none] ≠
      refine_points
        [RawItem.panel (some "Weekly Contest 2") (some "01 Jan 2022") none none,
         RawItem.panel (some "Weekly Contest 1") (some "01 Jan 2022") (some 1500) none] :=
  ⟨by decide, by decide, by decide, by decide, by decide⟩

/-- C1 counterexample: the spec's tooltip-only scenario does NOT yield
`rating = 1600` — the first line "Rank 120" already contains the 3-digit
run "120", which sets `rating` to 120 before the "1600" line is reached. -/
theorem c1_counterexample :
    refine_points [RawItem.tooltip "Rank 120\n1600\nWeekly Contest 300\n08 Jan 2022"] ≠
      [⟨some 1600, some "08 Jan 2022", some "Weekly Contest 300", some 120⟩] := by
  decide

/-- C1 (amended): the tooltip-only scenario parses to rank 120, rating 120
(from the "Rank 120" line, the first one matching a 3–5 digit run),
contest name "Weekly Contest 300" and date "08 Jan 2022". -/
theorem c1_amended_thm :
    refine_points [RawItem.tooltip "Rank 120\n1600\nWeekly Contest 300\n08 Jan 2022"] =
      [⟨some 120, some "08 Jan 2022", some "Weekly Contest 300", some 120⟩] := by
  decide

/-- C4 counterexample: a tooltip snapshot whose text matches none of the
line heuristics ("hello") produces a Record with all four primary fields
null — and that Record IS placed in the final Series (under dedup key
`("", "")`), contradicting the claim that empty parses are never included. -/
theorem c4_counterexample :
    refine_points [RawItem.tooltip "hello"] = [⟨none, none, none, none⟩] ∧
    refine_points [RawItem.tooltip "hello"] ≠ [] := ⟨by decide, by decide⟩

/-- C4 (amended): the reconciler does not discard empty parses — any
non-falsy candidate whose parse produced no fields is kept in the output
as an all-null Record keyed `("", "")`. -/
theorem c4_amended_thm (it : RawItem) (h1 : it ≠ RawItem.emptyItem)
    (h2 : parseFields it = ⟨none, none, none, none⟩) :
    refine_points [it] = [⟨none, none, none, none⟩] := by
  have hk : keyOf it = ("", "") := by rw [keyOf, h2]; rfl
  have hr : recOf it = ⟨none, none, none, none, none⟩ := by rw [recOf, h2]; rfl
  show (sSort (([it].foldl refineStep []).map Prod.snd)).map stripIso = _
  rw [List.foldl_cons, List.foldl_nil, refineStep_of_ne [] it h1, hk, hr]
  rfl

/-- Witness for C4 at the digit-free, heuristic-free tooltip "hello". -/
theorem c4_witness :
    RawItem.tooltip "hello" ≠ RawItem.emptyItem ∧
    parseFields (RawItem.tooltip "hello") = ⟨none, none, none, none⟩ ∧
    refine_points [RawItem.tooltip "hello"] = [⟨none, none, none, none⟩] :=
  ⟨by decide, by decide, c4_amended_thm _ (by decide) (by decide)⟩

/-! ## The rank heuristic: which "Rank" line wins -/

/-- The rank a single line contributes: its concatenated digits, provided
the line contains the token "Rank" and at least one digit. -/
def rankOfLine (ln : String) : Option Int :=
  if strContainsSub ln "Rank" then rankDigitsVal ln else none

theorem lineStep_rank (st : PFields) (ln : String) :
    (lineStep st ln).rank = ((rankOfLine ln).orElse fun _ => st.rank) := by
  show (if strContainsSub ln "Rank" then
      match rankDigitsVal ln with
      | some v => some v
      | none => st.rank
    else st.rank) = _
  unfold rankOfLine
  by_cases hR : strContainsSub ln "Rank"
  · rw [if_pos hR, if_pos hR]
    cases rankDigitsVal ln <;> rfl
  · rw [if_neg hR, if_neg hR]
    rfl

theorem foldl_lineStep_rank (lines : List String) :
    ∀ st : PFields, ((lines.foldl lineStep st).rank) =
      (((lines.filterMap rankOfLine).getLast?).orElse fun _ => st.rank) := by
  induction lines with
  | nil => intro st; rfl
  | cons ln ls ih =>
    intro st
    rw [List.foldl_cons, ih (lineStep st ln), lineStep_rank st ln]
    rw [List.filterMap_cons]
    cases hln : rankOfLine ln with
    | none => rfl
    | some v =>
      cases hfm : ls.filterMap rankOfLine with
      | nil => rfl
      | cons w ws =>
        rw [List.getLast?_cons_cons]
        cases hgl : (w :: ws).getLast? with
        | none => exact absurd hgl (by simp)
        | some u => rfl

/-- C7 (amended): the tooltip rank is the concatenated-digit integer of the
LAST line that contains the case-sensitive token "Rank" and at least one
digit (later "Rank" lines overwrite earlier ones; `none` when no such line
exists). -/
theorem c7_amended_thm (raw : String) :
    (tooltipFields raw).rank = ((linesOf raw).filterMap rankOfLine).getLast? := by
  show (((linesOf raw).foldl lineStep ⟨none, none, none, none⟩).rank) = _
  rw [foldl_lineStep_rank (linesOf raw) ⟨none, none, none, none⟩]
  cases ((linesOf raw).filterMap rankOfLine).getLast? <;> rfl

/-- Witness for C7 on a two-"Rank"-line snapshot. -/
theorem c7_witness :
    (tooltipFields "Rank 120\nRank 300").rank =
      ((linesOf "Rank 120\nRank 300").filterMap rankOfLine).getLast? :=
  c7_amended_thm _

/-- C7 counterexample: with two "Rank" lines, the first match does not win —
the parse yields rank 300 (the last line), not 120. -/
theorem c7_counterexample :
    (tooltipFields "Rank 120\nRank 300").rank ≠ some 120 ∧
    (tooltipFields "Rank 120\nRank 300").rank = some 300 := ⟨by decide, by decide⟩

/-- C10: a line containing "Rank" but no digit characters leaves `rank`
untouched (the `int("")` ValueError is swallowed by the bare `except`):
it neither resets `rank` to null nor raises; any value from an earlier
"Rank" line of the same snapshot is retained. -/
theorem c10_thm (st : PFields) (ln : String) (hR : strContainsSub ln "Rank" = true)
    (hD : ln.data.all (fun c => !c.isDigit) = true) :
    (lineStep st ln).rank = st.rank := by
  have hval : rankOfLine ln = none := by
    unfold rankOfLine rankDigitsVal
    rw [if_pos hR]
    have : ln.data.filter Char.isDigit = [] := by
      rw [List.filter_eq_nil_iff]
      intro c hc
      have := List.all_eq_true.mp hD c hc
      simpa using this
    simp [this]
  rw [lineStep_rank st ln, hval]
  rfl

/-- Witness for C10: "Rank abc" has the token but no digits; an earlier
rank value 7 survives it. -/
theorem c10_witness :
    strContainsSub "Rank abc" "Rank" = true ∧
    "Rank abc".data.all (fun c => !c.isDigit) = true ∧
    (lineStep ⟨none, none, none, some 7⟩ "Rank abc").rank = some 7 :=
  ⟨by decide, by decide, c10_thm ⟨none, none, none, some 7⟩ "Rank abc" (by decide) (by decide)⟩

/-! ## The date-parser claim -/

theorem orElse_none_iff (a : Option Date) (f : Unit → Option Date) :
    (a.orElse f) = none ↔ a = none ∧ f () = none := by
  cases a <;> simp [Option.orElse]

/-- C8: the date parser round-trips the spec's examples, and structurally:
after the "Sept " → "Sep " preprocessing it tries `%d %b %Y`,
`%d %B %Y`, `%d %b, %Y`, `%Y-%m-%d` in that order (the first format's
success decides the result), then the 3-token fallback, and returns null
exactly when every attempt fails. -/
theorem c8_thm :
    try_parse_date "15 Mar 2023" = some ⟨2023, 3, 15⟩ ∧
    try_parse_date "15 March 2023" = some ⟨2023, 3, 15⟩ ∧
    try_parse_date "15 Sept 2023" = some ⟨2023, 9, 15⟩ ∧
    try_parse_date "not a date" = none ∧
    (∀ s, try_parse_date s = none ↔
      (parse_d_b_Y (preprocess s) = none ∧ parse_d_B_Y (preprocess s) = none ∧
       parse_d_bComma_Y (preprocess s) = none ∧ parse_Y_m_d (preprocess s) = none ∧
       fallback3 (preprocess s) = none)) ∧
    (∀ s d, parse_d_b_Y (preprocess s) = some d → try_parse_date s = some d) := by
  refine ⟨by decide, by decide, by decide, by decide, ?_, ?_⟩
  · intro s
    by_cases hs : s = ""
    · subst hs; decide
    · rw [try_parse_date, if_neg hs]
      simp only [orElse_none_iff]
  · intro s d h
    by_cases hs : s = ""
    · subst hs
      have hn : parse_d_b_Y (preprocess "") = none := rfl
      rw [hn] at h
      simp at h
    · rw [try_parse_date, if_neg hs]
      show (parse_d_b_Y (preprocess s)).orElse _ = some d
      rw [h]
      rfl

/-! ## Sweep-planner lemmas -/

theorem le_pyRound (q : ℚ) : ⌊q⌋ ≤ pyRound q := by
  unfold pyRound
  split_ifs <;> omega

theorem pyRound_le (q : ℚ) : pyRound q ≤ ⌊q⌋ + 1 := by
  unfold pyRound
  split_ifs <;> omega

theorem pyRound_mono {a b : ℚ} (h : a ≤ b) : pyRound a ≤ pyRound b := by
  have hf : ⌊a⌋ ≤ ⌊b⌋ := Int.floor_le_floor h
  rcases lt_or_eq_of_le hf with hlt | heq
  · calc pyRound a ≤ ⌊a⌋ + 1 := pyRound_le a
      _ ≤ ⌊b⌋ := by omega
      _ ≤ pyRound b := le_pyRound b
  · unfold pyRound
    rw [← heq]
    have hab : a - (⌊a⌋ : ℚ) ≤ b - (⌊a⌋ : ℚ) := by linarith
    split_ifs <;> first | omega | linarith

theorem x_at_mono (b : Box) (h : 2 * pad_x b ≤ b.width) {i j : Nat} (hij : i ≤ j) :
    x_at b i ≤ x_at b j := by
  unfold x_at
  have h220 : (1 : Nat) < X_STEPS := by norm_num [X_STEPS]
  simp only [if_pos h220]
  apply pyRound_mono
  have hws : 0 ≤ end_x b - start_x b := by
    unfold start_x end_x
    linarith
  have h219 : (0 : ℚ) < (X_STEPS : ℚ) - 1 := by norm_num [X_STEPS]
  have hdiv : (i : ℚ) / ((X_STEPS : ℚ) - 1) ≤ (j : ℚ) / ((X_STEPS : ℚ) - 1) :=
    (div_le_div_iff_of_pos_right h219).mpr (by exact_mod_cast hij)
  have hmul := mul_le_mul_of_nonneg_left hdiv hws
  linarith

/-- C9 (amended): for an area with `2 * padX ≤ width`, the X probe
coordinates are the rounded evenly spaced values and are nondecreasing;
the Y fan starts at `centerY - half`, never exceeds `centerY + half`, and —
with the source constants `ySweepPixels = 80`, `ySweepStep = 12` — does NOT
contain `centerY + half` itself (the top offset is `centerY + 32`). -/
theorem c9_amended_thm (b : Box) (h : 2 * pad_x b ≤ b.width) :
    (∀ i j, i ≤ j → j < X_STEPS → x_at b i ≤ x_at b j) ∧
    (y_positions b).head? = some (center_y b - halfFan) ∧
    (∀ y ∈ y_positions b, y ≤ center_y b + halfFan) ∧
    center_y b + halfFan ∉ y_positions b := by
  have hIR : intRange (-halfFan) (halfFan + 1) Y_SWEEP_STEP =
      [-40, -28, -16, -4, 8, 20, 32] := by decide
  have hhf : halfFan = 40 := by decide
  have hy_pos : y_positions b = [center_y b + -40, center_y b + -28, center_y b + -16,
      center_y b + -4, center_y b + 8, center_y b + 20, center_y b + 32] := by
    rw [y_positions, hIR]
    rfl
  refine ⟨fun i j hij _ => x_at_mono b h hij, ?_, ?_, ?_⟩
  · rw [hy_pos, hhf]
    rfl
  · intro y hy
    rw [hhf]
    rw [hy_pos] at hy
    simp only [List.mem_cons, List.not_mem_nil, or_false] at hy
    rcases hy with h | h | h | h | h | h | h <;> omega
  · rw [hhf, hy_pos]
    intro hmem
    simp only [List.mem_cons, List.not_mem_nil, or_false] at hmem
    rcases hmem with h | h | h | h | h | h | h <;> omega

/-- Witness for C9 at the box `(0, 0, 100, 100)`. -/
theorem c9_witness :
    2 * pad_x ⟨0, 0, 100, 100⟩ ≤ (100 : ℚ) ∧
    ((∀ i j, i ≤ j → j < X_STEPS →
        x_at ⟨0, 0, 100, 100⟩ i ≤ x_at ⟨0, 0, 100, 100⟩ j) ∧
      (y_positions ⟨0, 0, 100, 100⟩).head? =
        some (center_y ⟨0, 0, 100, 100⟩ - halfFan) ∧
      (∀ y ∈ y_positions ⟨0, 0, 100, 100⟩, y ≤ center_y ⟨0, 0, 100, 100⟩ + halfFan) ∧
      center_y ⟨0, 0, 100, 100⟩ + halfFan ∉ y_positions ⟨0, 0, 100, 100⟩) := by
  have hp : 2 * pad_x ⟨0, 0, 100, 100⟩ ≤ (100 : ℚ) := by norm_num [pad_x]
  exact ⟨hp, c9_amended_thm ⟨0, 0, 100, 100⟩ hp⟩

/-- C9 counterexample: at the box `(0, 0, 100, 100)` (centerY = 50,
half = 40) the Y fan does not include `centerY + half` = 90, refuting the
claim's "the fan includes both centerY - half and centerY + half". -/
theorem c9_counterexample :
    center_y ⟨0, 0, 100, 100⟩ + halfFan ∉ y_positions ⟨0, 0, 100, 100⟩ := by
  have hc : center_y ⟨0, 0, 100, 100⟩ = 50 := by norm_num [center_y, pyTrunc]
  have hIR : intRange (-halfFan) (halfFan + 1) Y_SWEEP_STEP =
      [-40, -28, -16, -4, 8, 20, 32] := by decide
  rw [y_positions, hIR, hc]
  decide

theorem length_flatMap_pairs {α β : Type} (xs : List α) (ys : List β) :
    (xs.flatMap fun x => ys.map fun y => (x, y)).length = xs.length * ys.length := by
  induction xs with
  | nil => simp
  | cons x xs ih =>
    simp only [List.flatMap_cons, List.length_append, List.length_map, List.length_cons, ih]
    ring

theorem sweepPlan_some_length (b : Box) : (sweepPlan (some b)).length = 1540 := by
  show ((xCoords b).flatMap fun x => (y_positions b).map fun y => (x, y)).length = 1540
  rw [length_flatMap_pairs]
  have h1 : (xCoords b).length = 220 := by simp [xCoords, X_STEPS]
  have h2 : (y_positions b).length = 7 := by
    rw [y_positions, show intRange (-halfFan) (halfFan + 1) Y_SWEEP_STEP =
      [-40, -28, -16, -4, 8, 20, 32] from by decide]
    rfl
  rw [h1, h2]

/-- C6 (amended): the sweep plan is empty exactly when the svg element or
its bounding box is missing (`none`); any present bounding box — including
a zero-width/zero-height one — yields the full plan of
`X_STEPS * 7 = 1540` probe coordinates. No exception is raised (the
planner is a total function). -/
theorem c6_amended_thm :
    sweepPlan none = [] ∧ ∀ b : Box, (sweepPlan (some b)).length = 1540 :=
  ⟨rfl, sweepPlan_some_length⟩

/-- C6 counterexample: a zero-area bounding box does NOT yield an empty
probe plan — the planner still emits its 1540 coordinates. -/
theorem c6_counterexample : sweepPlan (some ⟨0, 0, 0, 0⟩) ≠ [] := by
  intro hcon
  have h := sweepPlan_some_length ⟨0, 0, 0, 0⟩
  rw [hcon] at h
  simp at h
